import Mathlib

/-!
Verification development for the figure localization and enhancement
pipeline of the Sofia research agent (src/services/geminiService.ts).

The pipeline is shallowly embedded: every external effect (the PDF.js
document source, the model inference calls, image decode and canvas
availability) is supplied as explicit data, and the control flow of the
TypeScript functions is transcribed branch by branch.  Fallible calls
are modelled with Except; JSON payloads are modelled at value level
(numbers as rationals, the parsed box_2d field as an optional list).
The regular-expression tests used by findPageForQuery are embedded as
executable matchers over character lists, with the case-insensitive
flag realised by lowercasing the subject text, exactly as the i flag
does for the ASCII patterns involved.
-/

namespace Sofia

/-- JS regex class backslash-s, restricted to the ASCII whitespace
characters (the Unicode space members never occur in the texts the
claims quantify over). -/
def jsWs (c : Char) : Bool :=
  c = ' ' || c = '\t' || c = '\n' || c = '\r' || c = '\x0b' || c = '\x0c'

/-- JS regex class backslash-d (ASCII digits). -/
def isDigitChar (c : Char) : Bool :=
  '0' ≤ c && c ≤ '9'

/-- Matches a literal pattern at the head of the subject and returns the
remainder, or none when the pattern is not a prefix. -/
def dropLit : List Char → List Char → Option (List Char)
  | [], s => some s
  | _ :: _, [] => none
  | c :: p, d :: s => if c = d then dropLit p s else none

/-- Lowercased character data of a string: the embedding of the i flag
on the regexes of findPageForQuery. -/
def lcData (s : String) : List Char :=
  s.data.map Char.toLower

/-- Embedding of the regex fragment backslash-s star followed by the
capture group backslash-d plus: skip leading whitespace, then take the
maximal digit run, failing when it is empty.  Backtracking on the star
is not needed because a digit is never a whitespace character, so the
viable consumption is unique. -/
def digitsAfter (s : List Char) : Option (List Char) :=
  let r := s.dropWhile jsWs
  let ds := r.takeWhile isDigitChar
  if ds = [] then none else some ds

/-- One alternative of the query regex (Figure|Fig.?|Table) followed by
whitespace and digits, at the current position. -/
def altTry (isTab : Bool) (pat s : List Char) : Option (Bool × List Char) :=
  match dropLit pat s with
  | some r =>
    match digitsAfter r with
    | some ds => some (isTab, ds)
    | none => none
  | none => none

/-- All alternatives of the query regex at the current position, in the
order the regex engine tries them: Figure, Fig., Fig, Table.  The first
component of the result records whether the matched label starts with
the letter t, which is all findPageForQuery reads from the capture. -/
def tryAt (s : List Char) : Option (Bool × List Char) :=
  (altTry false "figure".data s).orElse fun _ =>
  (altTry false "fig.".data s).orElse fun _ =>
  (altTry false "fig".data s).orElse fun _ =>
  altTry true "table".data s

/-- Leftmost match of the query regex: scan positions left to right. -/
def parseQueryAux : List Char → Option (Bool × List Char)
  | [] => none
  | c :: t =>
    match tryAt (c :: t) with
    | some r => some r
    | none => parseQueryAux t

/-- Embedding of query.match over the pattern (Figure|Fig.?|Table)
backslash-s star (backslash-d plus) with the i flag, reduced to the two
facts the caller uses: whether the label starts with t, and the digit
string of the number capture. -/
def parseQuery (q : String) : Option (Bool × List Char) :=
  parseQueryAux (lcData q)

/-- The tail of a caption pattern after the label alternative: skip
whitespace, match the literal number, and when punct is demanded
require the next character to be a period or a colon. -/
def tailMatch (num : List Char) (punct : Bool) (r : List Char) : Bool :=
  let r2 := r.dropWhile jsWs
  match dropLit num r2 with
  | some rest =>
    if punct then
      match rest with
      | c :: _ => c = '.' || c = ':'
      | [] => false
    else true
  | none => false

/-- Remainders after the label alternative (labelType|fig.?) at the
current position, in the order backtracking tries them. -/
def afterAlt (lt s : List Char) : List (List Char) :=
  (match dropLit lt s with | some r => [r] | none => []) ++
  (match dropLit "fig.".data s with | some r => [r] | none => []) ++
  (match dropLit "fig".data s with | some r => [r] | none => [])

/-- Existence semantics of RegExp.test for the caption patterns: some
position admits some label alternative whose tail matches. -/
def patOccursAux (lt num : List Char) (punct : Bool) : List Char → Bool
  | [] => false
  | c :: t =>
    (afterAlt lt (c :: t)).any (tailMatch num punct) || patOccursAux lt num punct t

/-- The strict caption pattern (labelType|fig.?) ws number [.:] with
the i flag, applied to a page text. -/
def strictTest (lt num : List Char) (text : String) : Bool :=
  patOccursAux lt num true (lcData text)

/-- The loose pattern (labelType|fig.?) ws number with the i flag. -/
def looseTest (lt num : List Char) (text : String) : Bool :=
  patOccursAux lt num false (lcData text)

/-- The labelType string chosen by findPageForQuery from the first
letter of the matched label. -/
def labelTypeChars (isTab : Bool) : List Char :=
  if isTab then "table".data else "figure".data

/-- The page scan loop of findPageForQuery.  Each page is an Except:
ok carries the joined extracted text, error models getPage or
getTextContent throwing.  A throw lands in the catch block of the
source, whose fall-through returns 1 regardless of the recorded
bestPage, because bestPage is scoped inside the try.  The foundStrict
flag is transcribed although the source never sets it. -/
def scanLoop (lt num : List Char) :
    List (Except Unit String) → Nat → Nat → Bool → Nat
  | [], _, best, _ => best
  | (Except.error _) :: _, _, _, _ => 1
  | (Except.ok t) :: rest, i, best, fs =>
    if strictTest lt num t then i
    else scanLoop lt num rest (i + 1)
      (if !fs && looseTest lt num t then i else best) fs

/-- Embedding of findPageForQuery.  The document is supplied as the
outcome of getDocument: error models a load failure (caught, returning
1), ok carries the per-page extraction outcomes.  The PDF library is
assumed present (its absence returns 1 before anything else).  The scan
is bounded by maxScan = min(numPages, 30), embedded as take 30. -/
def findPageForQuery (load : Except Unit (List (Except Unit String)))
    (query : String) : Nat :=
  match parseQuery query with
  | none => 1
  | some (isTab, num) =>
    let lt := labelTypeChars isTab
    match load with
    | Except.error _ => 1
    | Except.ok pages => scanLoop lt num (pages.take 30) 1 1 false

/-- Outcome of the target extraction inference call, at value level:
throws models the call or JSON.parse raising (both land in the same
catch); ok none models a parsed value that is not an array; ok with a
list models a parsed JSON array of identifiers. -/
inductive ExtractOutcome where
  | throws : ExtractOutcome
  | ok : Option (List String) → ExtractOutcome
deriving DecidableEq

/-- Embedding of extractFigureTargets: the parsed array when it is
nonempty, the singleton raw query otherwise (parse failure, non-array,
or empty array). -/
def extractFigureTargets (query : String) (resp : ExtractOutcome) : List String :=
  match resp with
  | ExtractOutcome.throws => [query]
  | ExtractOutcome.ok none => [query]
  | ExtractOutcome.ok (some targets) =>
    if targets.length > 0 then targets else [query]

/-- Environment of one cropImage call: the decoded pixel dimensions of
the page image, whether decode succeeds (img.onload versus img.onerror),
whether a 2d canvas context is available, and the base64 the canvas
encoder would produce for the cropped rectangle. -/
structure ImgInfo where
  width : ℚ
  height : ℚ
  decodeOk : Bool
  ctxOk : Bool
  outData : String
deriving DecidableEq

/-- Result of cropImage: the unmodified input image, or the encoded
crop of the source rectangle with origin (sx, sy) and size (sw, sh)
in pixels. -/
inductive CropOut where
  | original : CropOut
  | rect : String → ℚ → ℚ → ℚ → ℚ → CropOut
deriving DecidableEq

/-- Embedding of cropImage on a box [ymin, xmin, ymax, xmax].  The
promise executor only ever resolves: decode failure, a non-positive
normalized width or height, and a missing drawing context all resolve
with the original image; otherwise the source rectangle is the
normalized coordinates scaled by the actual pixel dimensions. -/
def cropImage (ymin xmin ymax xmax : ℚ) (info : ImgInfo) : CropOut :=
  if info.decodeOk then
    let rY := ymin / 1000
    let rX := xmin / 1000
    let rH := (ymax - ymin) / 1000
    let rW := (xmax - xmin) / 1000
    if rW ≤ 0 ∨ rH ≤ 0 then CropOut.original
    else if info.ctxOk then
      CropOut.rect info.outData (info.width * rX) (info.height * rY)
        (info.width * rW) (info.height * rH)
    else CropOut.original
  else CropOut.original

/-- Outcome of the region detection inference call: throws models the
call or JSON.parse raising (one catch covers both); ok carries the
box_2d field of the parsed JSON, none when it is absent, falsy or not
an array, and the number list otherwise (numbers as rationals). -/
inductive DetectOutcome where
  | throws : DetectOutcome
  | ok : Option (List ℚ) → DetectOutcome
deriving DecidableEq

/-- Symbolic image value flowing through one target's pipeline. -/
inductive ImgVal where
  | empty : ImgVal
  | pageRaster : String → ImgVal
  | crop : String → ℚ → ℚ → ℚ → ℚ → ImgVal
  | enhanced : String → String → ImgVal
deriving DecidableEq

/-- Embedding of the detection block of processSingleFigure: the image
handed to the enhancement step.  The box must be a 4-element array and
pass the three safety gates (degenerate, too small, near-full-page) for
cropImage to be invoked; every other path keeps the unmodified page
raster, as does a cropImage call that resolves with its input. -/
def detectStage (pageB64 : String) (d : DetectOutcome) (info : ImgInfo) : ImgVal :=
  match d with
  | DetectOutcome.throws => ImgVal.pageRaster pageB64
  | DetectOutcome.ok b =>
    match b with
    | some [y1, x1, y2, x2] =>
      let h := y2 - y1
      let w := x2 - x1
      if h ≤ 0 ∨ w ≤ 0 then ImgVal.pageRaster pageB64
      else if h < 20 then ImgVal.pageRaster pageB64
      else if h > 950 ∧ w > 950 then ImgVal.pageRaster pageB64
      else
        match cropImage y1 x1 y2 x2 info with
        | CropOut.original => ImgVal.pageRaster pageB64
        | CropOut.rect data sx sy sw sh => ImgVal.crop data sx sy sw sh
    | _ => ImgVal.pageRaster pageB64

/-- An inlineData payload of a response part; an empty data string
models the falsy values the source's truthiness test skips. -/
structure InlineData where
  mimeType : String
  data : String
deriving DecidableEq

/-- One part of the enhancement response content. -/
structure Part where
  inlineData : Option InlineData
deriving DecidableEq

/-- The loop over response parts: every part with truthy inline data
overwrites finalImageUrl, so the fold keeps the last qualifying part. -/
def pickInline (parts : List Part) : Option InlineData :=
  parts.foldl
    (fun acc p =>
      match p.inlineData with
      | some d => if d.data = "" then acc else some d
      | none => acc)
    none

/-- Outcome of the enhancement inference call: throws models the call
raising; ok carries the parts list when the candidates-content-parts
chain is present, none otherwise. -/
inductive EnhanceOutcome where
  | throws : EnhanceOutcome
  | ok : Option (List Part) → EnhanceOutcome
deriving DecidableEq

/-- The mimeType defaulting of the source (falsy mime becomes
image/png). -/
def mimeOrDefault (m : String) : String :=
  if m = "" then "image/png" else m

/-- Embedding of the enhancement block of processSingleFigure: the
final image is the last inline image part of the response when one
exists, and the pre-enhancement input unmodified when the call throws,
the parts chain is absent, or no part carries inline data. -/
def enhanceStage (current : ImgVal) (e : EnhanceOutcome) : ImgVal :=
  match e with
  | EnhanceOutcome.throws => current
  | EnhanceOutcome.ok none => current
  | EnhanceOutcome.ok (some parts) =>
    match pickInline parts with
    | none => current
    | some d => ImgVal.enhanced (mimeOrDefault d.mimeType) d.data

/-- External world of one target's pipeline run: the document for the
locator, the rasterizer outcome per page number, the detection and
enhancement call outcomes, and the crop environment. -/
structure TargetEnv where
  doc : Except Unit (List (Except Unit String))
  render : Nat → Except Unit String
  detect : DetectOutcome
  imgInfo : ImgInfo
  enhance : EnhanceOutcome

/-- The per-target record returned by processSingleFigure.  Its
imageUrl field is represented symbolically by image; the source's empty
string corresponds to ImgVal.empty. -/
structure FigResult where
  image : ImgVal
  label : String
  error : Option String
deriving DecidableEq

/-- The data URL string the record carries; empty exactly on the empty
image, since every data URL has a nonempty scheme prefix. -/
def imgUrlStr : ImgVal → String
  | ImgVal.empty => ""
  | ImgVal.pageRaster d => "data:image/jpeg;base64," ++ d
  | ImgVal.crop d _ _ _ _ => "data:image/jpeg;base64," ++ d
  | ImgVal.enhanced m d => "data:" ++ m ++ ";base64," ++ d

/-- Embedding of processSingleFigure.  findPageForQuery catches all its
failures internally and cropImage only resolves, so the outer catch
fires exactly when renderPageAsImage throws, producing the failure
record; a detection or enhancement throw is absorbed by its inner catch
and processing continues on the last good image. -/
def processSingleFigure (target : String) (env : TargetEnv) : FigResult :=
  let pageNum := findPageForQuery env.doc target
  match env.render pageNum with
  | Except.error _ =>
    { image := ImgVal.empty, label := target, error := some "Failed to process" }
  | Except.ok pageB64 =>
    let cropped := detectStage pageB64 env.detect env.imgInfo
    let final := enhanceStage cropped env.enhance
    { image := final, label := target, error := none }

/-- The per-target results of one visualizeFigure invocation, in
extractor order; the external world of each branch is a function of its
target identifier, since branches share no mutable state. -/
def pipelineResults (targets : List String) (envOf : String → TargetEnv) :
    List FigResult :=
  targets.map fun t => processSingleFigure t (envOf t)

/-- Promise.all with an explicit completion schedule: each branch, in
completion order, writes its settled value into the slot of its
original index, and the joined list is read out slot by slot. -/
def promiseAllJoin (results : List FigResult) (order : List Nat) :
    List (Option FigResult) :=
  order.foldl (fun slots j => slots.set j results[j]?)
    (List.replicate results.length none)

/-- One step of the content assembly loop of visualizeFigure: append
the markdown image block for a truthy imageUrl (setting hasSuccess), or
the per-target failure notice otherwise. -/
def figStepFold (acc : String × Bool) (r : FigResult) : String × Bool :=
  if imgUrlStr r.image = "" then
    (acc.1 ++ "*Could not visualize " ++ r.label ++ "*\n\n", acc.2)
  else
    (acc.1 ++ "**" ++ r.label ++ "**\n\n![" ++ r.label ++ "](" ++
      imgUrlStr r.image ++ ")\n\n", true)

/-- The all-failure message of visualizeFigure. -/
def noLocateMsg : String :=
  "I could not locate or process the requested figures in this paper."

/-- Content assembly of visualizeFigure over the settled results: the
per-target loop, then the collapsing of an all-failed run into the
single top-level message, or the trailing question otherwise. -/
def assembleContent (results : List FigResult) : String :=
  let step := results.foldl figStepFold ("Here is your visualization.\n\n", false)
  if step.2 then
    step.1 ++ "Do you want me to **give an analysis** of these figures or **describe** them?"
  else noLocateMsg

/-- Embedding of visualizeFigure for a selected paper: extract targets,
run every target, assemble the message content.  Promise.all never
rejects here because processSingleFigure catches everything, so the
critical-error catch of the source is unreachable. -/
def visualizeFigure (query : String) (ex : ExtractOutcome)
    (envOf : String → TargetEnv) : String :=
  assembleContent (pipelineResults (extractFigureTargets query ex) envOf)

/-- Index of the first element satisfying a predicate. -/
def firstIdxP (p : α → Bool) : List α → Option Nat
  | [] => none
  | a :: t => if p a then some 0 else (firstIdxP p t).map (· + 1)

/-- Index of the last element satisfying a predicate. -/
def lastIdxP (p : α → Bool) : List α → Option Nat
  | [] => none
  | a :: t =>
    match lastIdxP p t with
    | some k => some (k + 1)
    | none => if p a then some 0 else none

/-- The ten ASCII digit characters. -/
def digitChars : List Char :=
  ['0', '1', '2', '3', '4', '5', '6', '7', '8', '9']

/-- A concrete crop environment used to instantiate theorems. -/
def sampleInfo : ImgInfo :=
  { width := 1000, height := 800, decodeOk := true, ctxOk := true,
    outData := "CROPDATA" }

/-- A concrete target environment whose detection call throws and whose
rasterizer succeeds on every page. -/
def sampleEnvDetectThrow : TargetEnv :=
  { doc := Except.ok [], render := fun _ => Except.ok "PG",
    detect := DetectOutcome.throws, imgInfo := sampleInfo,
    enhance := EnhanceOutcome.throws }

/-- A concrete target environment whose rasterizer throws. -/
def sampleEnvRenderThrow : TargetEnv :=
  { doc := Except.ok [], render := fun _ => Except.error (),
    detect := DetectOutcome.throws, imgInfo := sampleInfo,
    enhance := EnhanceOutcome.throws }

/-- Whether a response part carries truthy inline image data. -/
def hasInline (p : Part) : Bool :=
  match p.inlineData with
  | some d => d.data != ""
  | none => false

end Sofia

namespace Sofia

/-- Claim C4: for every query string (including the empty string) and
every extraction response, extractFigureTargets returns at least one
identifier; on a parse failure, a non-array value, or an empty array,
the result is exactly the singleton list holding the raw query. -/
theorem claim_C4 (q : String) (r : ExtractOutcome) :
    1 ≤ (extractFigureTargets q r).length
    ∧ (r = ExtractOutcome.throws → extractFigureTargets q r = [q])
    ∧ (r = ExtractOutcome.ok none → extractFigureTargets q r = [q])
    ∧ (∀ ts, r = ExtractOutcome.ok (some ts) → ts = [] →
        extractFigureTargets q r = [q]) := by
  refine ⟨?_, ?_, ?_, ?_⟩
  · cases r with
    | throws => simp [extractFigureTargets]
    | ok b =>
      cases b with
      | none => simp [extractFigureTargets]
      | some ts =>
        by_cases h : ts.length > 0
        · simp [extractFigureTargets, h]; omega
        · simp [extractFigureTargets, h]
  · rintro rfl; rfl
  · rintro rfl; rfl
  · rintro ts rfl rfl; rfl

/-- Witness for C4 at the empty query and an empty parsed array. -/
theorem claim_C4_witness :
    1 ≤ (extractFigureTargets "" (ExtractOutcome.ok (some []))).length
    ∧ extractFigureTargets "" (ExtractOutcome.ok (some [])) = [""] :=
  ⟨(claim_C4 "" (ExtractOutcome.ok (some []))).1,
   (claim_C4 "" (ExtractOutcome.ok (some []))).2.2.2 [] rfl rfl⟩

/-- Claim C9: cropImage resolves with the original image whenever the
image fails to decode, the normalized width or height is non-positive,
or no drawing context is available; otherwise it extracts exactly the
rectangle obtained by scaling the normalized 0-1000 coordinates by the
actual pixel dimensions. -/
theorem claim_C9 (ymin xmin ymax xmax : ℚ) (info : ImgInfo) :
    (info.decodeOk = false →
      cropImage ymin xmin ymax xmax info = CropOut.original)
    ∧ (xmax - xmin ≤ 0 ∨ ymax - ymin ≤ 0 →
      cropImage ymin xmin ymax xmax info = CropOut.original)
    ∧ (info.ctxOk = false →
      cropImage ymin xmin ymax xmax info = CropOut.original)
    ∧ (info.decodeOk = true → info.ctxOk = true →
      0 < xmax - xmin → 0 < ymax - ymin →
      cropImage ymin xmin ymax xmax info =
        CropOut.rect info.outData (xmin / 1000 * info.width)
          (ymin / 1000 * info.height) ((xmax - xmin) / 1000 * info.width)
          ((ymax - ymin) / 1000 * info.height)) := by
  have h1000 : (0 : ℚ) < 1000 := by norm_num
  refine ⟨fun h => by simp [cropImage, h], fun h => ?_, fun h => ?_,
    fun hd hc hx hy => ?_⟩
  · have hcond : (xmax - xmin) / 1000 ≤ 0 ∨ (ymax - ymin) / 1000 ≤ 0 := by
      rcases h with h | h
      · exact Or.inl (div_nonpos_iff.mpr (Or.inr ⟨h, le_of_lt h1000⟩))
      · exact Or.inr (div_nonpos_iff.mpr (Or.inr ⟨h, le_of_lt h1000⟩))
    by_cases hd : info.decodeOk <;> simp [cropImage, hd, hcond]
  · by_cases hd : info.decodeOk
    · by_cases hz : (xmax - xmin) / 1000 ≤ 0 ∨ (ymax - ymin) / 1000 ≤ 0 <;>
        simp [cropImage, hd, hz, h]
    · simp [cropImage, hd]
  · have hw : 0 < (xmax - xmin) / 1000 := div_pos hx h1000
    have hh : 0 < (ymax - ymin) / 1000 := div_pos hy h1000
    have hz : ¬((xmax - xmin) / 1000 ≤ 0 ∨ (ymax - ymin) / 1000 ≤ 0) := by
      push_neg
      exact ⟨hw, hh⟩
    simp only [cropImage, hd, if_true, hz, if_false, hc]
    rw [mul_comm info.width, mul_comm info.height, mul_comm info.width,
      mul_comm info.height]

/-- Witness for C9: a decode failure resolves with the original, and a
valid box on a 1000 by 800 pixel page yields the scaled rectangle. -/
theorem claim_C9_witness :
    cropImage 100 200 600 900
        { sampleInfo with decodeOk := false } = CropOut.original
    ∧ cropImage 100 200 600 900 sampleInfo =
        CropOut.rect "CROPDATA" 200 80 700 400 := by
  constructor
  · exact (claim_C9 100 200 600 900 { sampleInfo with decodeOk := false }).1 rfl
  · have h := (claim_C9 100 200 600 900 sampleInfo).2.2.2 rfl rfl
      (by norm_num) (by norm_num)
    rw [h]
    norm_num [sampleInfo]

/-- Claim C3: whenever the detection response yields no 4-element box,
or the box fails a validation gate (non-positive height or width, which
covers the all-zero sentinel, height below 20, or height and width both
above 950), the image handed to the enhancement step is the unmodified
page raster and no crop is produced; the sentinel box and an absent box
behave identically. -/
theorem claim_C3 (p : String) (info : ImgInfo) :
    (detectStage p DetectOutcome.throws info = ImgVal.pageRaster p)
    ∧ (detectStage p (DetectOutcome.ok none) info = ImgVal.pageRaster p)
    ∧ (∀ l : List ℚ, l.length ≠ 4 →
        detectStage p (DetectOutcome.ok (some l)) info = ImgVal.pageRaster p)
    ∧ (∀ y1 x1 y2 x2 : ℚ,
        (y2 - y1 ≤ 0 ∨ x2 - x1 ≤ 0 ∨ y2 - y1 < 20 ∨
          (y2 - y1 > 950 ∧ x2 - x1 > 950)) →
        detectStage p (DetectOutcome.ok (some [y1, x1, y2, x2])) info =
          ImgVal.pageRaster p)
    ∧ (detectStage p (DetectOutcome.ok (some [0, 0, 0, 0])) info =
        detectStage p (DetectOutcome.ok none) info) := by
  refine ⟨rfl, rfl, ?_, ?_, ?_⟩
  · intro l hl
    rcases l with _ | ⟨a, _ | ⟨b, _ | ⟨c, _ | ⟨d, _ | ⟨e, rest⟩⟩⟩⟩⟩ <;>
      first
        | rfl
        | exact absurd rfl hl
  · intro y1 x1 y2 x2 hgate
    simp only [detectStage]
    split_ifs with h1 h2 h3
    · rfl
    · rfl
    · rfl
    · exfalso
      rcases hgate with h | h | h | h
      · exact h1 (Or.inl h)
      · exact h1 (Or.inr h)
      · exact h2 h
      · exact h3 h
  · norm_num [detectStage]

/-- Witness for C3 at the too-small box of the spec scenario. -/
theorem claim_C3_witness :
    detectStage "PG" (DetectOutcome.ok (some [10, 10, 15, 900])) sampleInfo =
      ImgVal.pageRaster "PG" :=
  (claim_C3 "PG" sampleInfo).2.2.2.1 10 10 15 900 (by norm_num)

/-- On an error-free scanned prefix, the page scan returns the first
strict match, else the last loose match, else the running default. -/
lemma scanLoop_map_ok (lt num : List Char) (texts : List String) :
    ∀ i best : Nat,
    scanLoop lt num (texts.map Except.ok) i best false =
      match firstIdxP (fun t => strictTest lt num t) texts with
      | some k => i + k
      | none =>
        match lastIdxP (fun t => looseTest lt num t) texts with
        | some k => i + k
        | none => best := by
  induction texts with
  | nil => intro i best; rfl
  | cons t rest ih =>
    intro i best
    simp only [List.map_cons, scanLoop, firstIdxP, lastIdxP, Bool.not_false,
      Bool.true_and]
    by_cases hs : strictTest lt num t
    · simp [hs]
    · rw [if_neg (by simp [hs]), ih]
      cases hf : firstIdxP (fun u => strictTest lt num u) rest with
      | some k => simp [hs, hf]; ring
      | none =>
        cases hl : lastIdxP (fun u => looseTest lt num u) rest with
        | some k => simp [hs, hf, hl]; ring
        | none =>
          by_cases hlt : looseTest lt num t <;> simp [hs, hf, hl, hlt]

/-- Claim C5, amended: on a document whose scanned prefix extracts
without error, findPageForQuery returns 1 when the identifier does not
match the label-number shape; otherwise it returns the first scanned
page matching the strict caption pattern if any, else the LAST (not the
first) scanned page matching the loose pattern, else page 1.  A loose
match on an earlier page therefore never pre-empts a strict match on a
later page. -/
theorem claim_C5 (q : String) (texts : List String) :
    (parseQuery q = none →
      findPageForQuery (Except.ok (texts.map Except.ok)) q = 1)
    ∧ (∀ isTab num, parseQuery q = some (isTab, num) →
      findPageForQuery (Except.ok (texts.map Except.ok)) q =
        match firstIdxP (fun t => strictTest (labelTypeChars isTab) num t)
            (texts.take 30) with
        | some k => 1 + k
        | none =>
          match lastIdxP (fun t => looseTest (labelTypeChars isTab) num t)
              (texts.take 30) with
          | some k => 1 + k
          | none => 1) := by
  constructor
  · intro h
    simp [findPageForQuery, h]
  · intro isTab num h
    simp only [findPageForQuery, h]
    rw [← List.map_take]
    exact scanLoop_map_ok (labelTypeChars isTab) num (texts.take 30) 1 1

/-- Counterexample to C5 as stated: the loose pattern first matches on
page 2, no page matches strictly, yet findPageForQuery returns page 3,
the last loose match, not page 2. -/
theorem claim_C5_cex :
    looseTest (labelTypeChars false) ['1'] "see Figure 1 here" = true
    ∧ strictTest (labelTypeChars false) ['1'] "see Figure 1 here" = false
    ∧ strictTest (labelTypeChars false) ['1'] "as Figure 1 shows" = false
    ∧ findPageForQuery
        (Except.ok [Except.ok "", Except.ok "see Figure 1 here",
          Except.ok "as Figure 1 shows", Except.ok ""]) "Figure 1" = 3
    ∧ (3 : Nat) ≠ 2 := by
  decide

/-- Witness for C5: a strict match on page 3 wins over the earlier
loose match on page 1. -/
theorem claim_C5_witness :
    findPageForQuery
      (Except.ok (["loose Figure 5 here", "", "Figure 5: caption"].map
        Except.ok)) "Figure 5" = 3 := by
  have h := (claim_C5 "Figure 5"
    ["loose Figure 5 here", "", "Figure 5: caption"]).2 false ['5'] (by decide)
  rw [h]
  decide

/-- A scan that reaches a page whose extraction throws returns 1, as
long as no earlier page matched strictly. -/
lemma scanLoop_error (lt num : List Char) (texts : List String)
    (rest : List (Except Unit String)) :
    ∀ i best : Nat, (∀ t ∈ texts, strictTest lt num t = false) →
    scanLoop lt num (texts.map Except.ok ++ Except.error () :: rest)
      i best false = 1 := by
  induction texts with
  | nil => intro i best _; rfl
  | cons t ts ih =>
    intro i best hns
    simp only [List.map_cons, List.cons_append, scanLoop]
    rw [if_neg (by simp [hns t (List.mem_cons_self t ts)])]
    exact ih _ _ fun u hu => hns u (List.mem_cons_of_mem t hu)

/-- Claim C7, amended: when page text extraction throws mid-scan before
any strict match and within the 30-page bound, findPageForQuery returns
page 1 unconditionally, discarding any loose-match candidate recorded
on an earlier page. -/
theorem claim_C7 (q : String) (isTab : Bool) (num : List Char)
    (texts : List String) (rest : List (Except Unit String))
    (hq : parseQuery q = some (isTab, num))
    (hlen : texts.length < 30)
    (hns : ∀ t ∈ texts, strictTest (labelTypeChars isTab) num t = false) :
    findPageForQuery
      (Except.ok (texts.map Except.ok ++ Except.error () :: rest)) q = 1 := by
  simp only [findPageForQuery, hq]
  rw [List.take_append_eq_append_take]
  rw [List.take_of_length_le (by simpa using le_of_lt hlen)]
  obtain ⟨m, hm⟩ : ∃ m, 30 - (texts.map Except.ok).length = m + 1 :=
    ⟨29 - texts.length, by simp; omega⟩
  rw [hm]
  show scanLoop _ _ (texts.map Except.ok ++ Except.error () :: rest.take m)
    1 1 false = 1
  exact scanLoop_error _ _ texts (rest.take m) 1 1 hns

/-- Counterexample to C7 as stated: a loose candidate is recorded on
page 2, extraction of page 3 throws, and findPageForQuery returns 1,
not the recorded candidate 2. -/
theorem claim_C7_cex :
    looseTest (labelTypeChars false) ['1'] "as Figure 1 shows" = true
    ∧ findPageForQuery
        (Except.ok [Except.ok "", Except.ok "as Figure 1 shows",
          Except.error ()]) "Figure 1" = 1
    ∧ (1 : Nat) ≠ 2 := by
  decide

/-- Witness for C7 at a concrete two-page prefix with a loose match. -/
theorem claim_C7_witness :
    findPageForQuery
      (Except.ok (["", "with Figure 1 inside"].map Except.ok ++
        Except.error () :: [])) "Figure 1" = 1 :=
  claim_C7 "Figure 1" false ['1'] ["", "with Figure 1 inside"] []
    (by decide) (by decide) (by decide)

/-- Digit characters are digits for the matcher, are not whitespace,
and are fixed by lowercasing. -/
lemma digitChar_facts {c : Char} (h : c ∈ digitChars) :
    isDigitChar c = true ∧ jsWs c = false ∧ Char.toLower c = c := by
  fin_cases h <;> exact ⟨by decide, by decide, by decide⟩

/-- Lowercasing fixes a digit string. -/
lemma map_toLower_digits {num : List Char} (h : ∀ c ∈ num, c ∈ digitChars) :
    num.map Char.toLower = num := by
  induction num with
  | nil => rfl
  | cons a t ih =>
    have ha := (digitChar_facts (h a (List.mem_cons_self a t))).2.2
    simp only [List.map_cons, ha,
      ih fun c hc => h c (List.mem_cons_of_mem a hc)]

/-- A digit string is its own maximal digit run. -/
lemma takeWhile_digits {num : List Char} (h : ∀ c ∈ num, c ∈ digitChars) :
    num.takeWhile isDigitChar = num := by
  induction num with
  | nil => rfl
  | cons a t ih =>
    have ha := (digitChar_facts (h a (List.mem_cons_self a t))).1
    simp only [List.takeWhile_cons, ha, if_true,
      ih fun c hc => h c (List.mem_cons_of_mem a hc)]

/-- Whitespace skipping stops at a digit. -/
lemma dropWhile_digits_head {d : Char} (hd : d ∈ digitChars) (t : List Char) :
    (d :: t).dropWhile jsWs = d :: t := by
  simp [List.dropWhile_cons, (digitChar_facts hd).2.1]

/-- A literal pattern consumes itself from a subject it prefixes. -/
lemma dropLit_self (p r : List Char) : dropLit p (p ++ r) = some r := by
  induction p with
  | nil => rfl
  | cons c t ih => simpa [dropLit] using ih

/-- The query parser on an identifier of the shape Table followed by a
space and a digit string: the label type is table, the capture is the
digit string. -/
lemma parseQuery_table (num : List Char) (hne : num ≠ [])
    (hd : ∀ c ∈ num, c ∈ digitChars) :
    parseQuery ("Table " ++ String.mk num) = some (true, num) := by
  have hdata : lcData ("Table " ++ String.mk num) = "table ".data ++ num := by
    unfold lcData
    rw [String.data_append, List.map_append, map_toLower_digits hd]
    congr 1
  have hda : digitsAfter (' ' :: num) = some num := by
    rcases hnum : num with _ | ⟨d, t⟩
    · exact absurd hnum hne
    · unfold digitsAfter
      rw [List.dropWhile_cons]
      simp only [show jsWs ' ' = true from rfl, if_true]
      rw [hnum] at hd
      rw [dropWhile_digits_head (hd d (List.mem_cons_self d t)) t,
        takeWhile_digits hd]
      simp
  have hfig : dropLit "figure".data ("table ".data ++ num) = none := rfl
  have hfigd : dropLit "fig.".data ("table ".data ++ num) = none := rfl
  have hfg : dropLit "fig".data ("table ".data ++ num) = none := rfl
  have htab : dropLit "table".data ("table ".data ++ num) = some (' ' :: num) :=
    dropLit_self "table".data (' ' :: num)
  have htry : tryAt ("table ".data ++ num) = some (true, num) := by
    unfold tryAt altTry
    rw [hfig, hfigd, hfg, htab]
    simp [Option.orElse, hda]
  unfold parseQuery
  rw [hdata]
  show parseQueryAux ('t' :: 'a' :: 'b' :: 'l' :: 'e' :: ' ' :: num) =
    some (true, num)
  rw [parseQueryAux]
  rw [show ('t' :: 'a' :: 'b' :: 'l' :: 'e' :: ' ' :: num) =
    "table ".data ++ num from rfl, htry]

/-- The strict caption pattern built for a table identifier accepts a
figure-style caption, because the pattern carries the alternative fig
with an optional period. -/
lemma strict_fig_caption (num : List Char) (hne : num ≠ [])
    (hd : ∀ c ∈ num, c ∈ digitChars) :
    strictTest "table".data num ("Fig. " ++ String.mk num ++ ":") = true := by
  have hdata : lcData ("Fig. " ++ String.mk num ++ ":") =
      "fig. ".data ++ (num ++ [':']) := by
    unfold lcData
    rw [String.data_append, String.data_append, List.map_append,
      List.map_append, map_toLower_digits hd, List.append_assoc]
    congr 1
  have hr2 : (' ' :: (num ++ [':'])).dropWhile jsWs = num ++ [':'] := by
    rcases hnum : num with _ | ⟨d, t⟩
    · exact absurd hnum hne
    · rw [List.dropWhile_cons]
      simp only [show jsWs ' ' = true from rfl, if_true, List.cons_append]
      rw [hnum] at hd
      exact dropWhile_digits_head (hd d (List.mem_cons_self d t)) (t ++ [':'])
  have htail : tailMatch num true (' ' :: (num ++ [':'])) = true := by
    simp [tailMatch, hr2, dropLit_self]
  unfold strictTest
  rw [hdata]
  show patOccursAux "table".data num true
    ('f' :: 'i' :: 'g' :: '.' :: ' ' :: (num ++ [':'])) = true
  rw [patOccursAux]
  have halt : afterAlt "table".data
      ('f' :: 'i' :: 'g' :: '.' :: ' ' :: (num ++ [':'])) =
      [' ' :: (num ++ [':']), '.' :: ' ' :: (num ++ [':'])] := rfl
  rw [halt]
  simp [htail]

/-- Claim C10: for a Table identifier, a page containing only a
figure-style caption with the same number satisfies the strict caption
pattern, and findPageForQuery returns that page as a strict match. -/
theorem claim_C10 (num : List Char) (hne : num ≠ [])
    (hd : ∀ c ∈ num, c ∈ digitChars) :
    strictTest (labelTypeChars true) num ("Fig. " ++ String.mk num ++ ":") = true
    ∧ findPageForQuery
        (Except.ok [Except.ok "", Except.ok ("Fig. " ++ String.mk num ++ ":")])
        ("Table " ++ String.mk num) = 2 := by
  have hstrict := strict_fig_caption num hne hd
  refine ⟨hstrict, ?_⟩
  unfold findPageForQuery
  rw [parseQuery_table num hne hd]
  show scanLoop "table".data num
    (List.take 30 [Except.ok "", Except.ok ("Fig. " ++ String.mk num ++ ":")])
    1 1 false = 2
  rw [List.take_of_length_le (by simp)]
  have h0s : strictTest "table".data num "" = false := rfl
  have h0l : looseTest "table".data num "" = false := rfl
  simp [scanLoop, h0s, h0l, hstrict]

/-- Witness for C10 at the number 7. -/
theorem claim_C10_witness :
    strictTest (labelTypeChars true) ['7']
      ("Fig. " ++ String.mk ['7'] ++ ":") = true
    ∧ findPageForQuery
        (Except.ok [Except.ok "", Except.ok ("Fig. " ++ String.mk ['7'] ++ ":")])
        ("Table " ++ String.mk ['7']) = 2 :=
  claim_C10 ['7'] (by decide) (by decide)

/-- Appending a qualifying part makes it the picked one: the loop keeps
the last inline image part. -/
lemma pickInline_append_last (parts : List Part) (d : InlineData)
    (hd : d.data ≠ "") :
    pickInline (parts ++ [{ inlineData := some d }]) = some d := by
  unfold pickInline
  rw [List.foldl_append]
  simp [hd]

/-- The part loop leaves its accumulator untouched when no part carries
inline data. -/
lemma pickInline_fold_skip (parts : List Part) :
    ∀ acc : Option InlineData, (∀ p ∈ parts, hasInline p = false) →
    parts.foldl
      (fun acc p =>
        match p.inlineData with
        | some d => if d.data = "" then acc else some d
        | none => acc) acc = acc := by
  induction parts with
  | nil => intro acc _; rfl
  | cons p t ih =>
    intro acc h
    rw [List.foldl_cons]
    have hp := h p (List.mem_cons_self p t)
    have hstep :
        (match p.inlineData with
          | some d => if d.data = "" then acc else some d
          | none => acc) = acc := by
      cases hpd : p.inlineData with
      | none => rfl
      | some d =>
        have hdd : d.data = "" := by
          simpa [hasInline, hpd] using hp
        simp [hdd]
    rw [hstep]
    exact ih acc fun q hq => h q (List.mem_cons_of_mem p hq)

/-- Without a qualifying part nothing is picked. -/
lemma pickInline_eq_none {parts : List Part}
    (h : ∀ p ∈ parts, hasInline p = false) : pickInline parts = none :=
  pickInline_fold_skip parts none h

/-- Claim C8, amended: the enhancement stage keeps its input unmodified
when the call throws, the parts chain is absent, or no part carries
inline image data; when at least one inline image part is present the
output is built from the LAST (not the first) such part. -/
theorem claim_C8 (c : ImgVal) (parts : List Part) (d : InlineData) :
    (enhanceStage c EnhanceOutcome.throws = c)
    ∧ (enhanceStage c (EnhanceOutcome.ok none) = c)
    ∧ ((∀ p ∈ parts, hasInline p = false) →
        enhanceStage c (EnhanceOutcome.ok (some parts)) = c)
    ∧ (d.data ≠ "" →
        enhanceStage c
            (EnhanceOutcome.ok (some (parts ++ [{ inlineData := some d }]))) =
          ImgVal.enhanced (mimeOrDefault d.mimeType) d.data) := by
  refine ⟨rfl, rfl, fun h => ?_, fun hd => ?_⟩
  · show (match pickInline parts with
      | none => c
      | some d => ImgVal.enhanced (mimeOrDefault d.mimeType) d.data) = c
    rw [pickInline_eq_none h]
  · show (match pickInline (parts ++ [{ inlineData := some d }]) with
      | none => c
      | some d => ImgVal.enhanced (mimeOrDefault d.mimeType) d.data) =
      ImgVal.enhanced (mimeOrDefault d.mimeType) d.data
    rw [pickInline_append_last parts d hd]

/-- Counterexample to C8 as stated: with two inline image parts the
output is built from the second, not the first. -/
theorem claim_C8_cex :
    enhanceStage (ImgVal.pageRaster "PG")
      (EnhanceOutcome.ok (some
        [{ inlineData := some { mimeType := "image/jpeg", data := "D1" } },
         { inlineData := some { mimeType := "image/png", data := "D2" } }])) =
      ImgVal.enhanced "image/png" "D2"
    ∧ ImgVal.enhanced "image/png" "D2" ≠ ImgVal.enhanced "image/jpeg" "D1" := by
  decide

/-- Witness for C8: a trailing inline part with a falsy mime type is
picked and defaulted to image/png. -/
theorem claim_C8_witness :
    enhanceStage (ImgVal.pageRaster "PG")
      (EnhanceOutcome.ok (some ([{ inlineData := none }] ++
        [{ inlineData := some { mimeType := "", data := "D9" } }]))) =
      ImgVal.enhanced "image/png" "D9" :=
  (claim_C8 (ImgVal.pageRaster "PG") [{ inlineData := none }]
    { mimeType := "", data := "D9" }).2.2.2 (by decide)

/-- Removing an element commutes with map. -/
lemma map_eraseIdx (f : α → β) :
    ∀ (l : List α) (i : Nat), (l.eraseIdx i).map f = (l.map f).eraseIdx i := by
  intro l
  induction l with
  | nil => intro i; rfl
  | cons a t ih =>
    intro i
    cases i with
    | zero => rfl
    | succ j => simp [List.eraseIdx, ih j]

/-- Claim C1, amended: a rasterization throw yields the per-target
failure record with the target label, the fixed error text and an empty
image; a detection throw is absorbed internally and yields a success
record with a non-empty image; and the results of the other targets are
exactly those obtained with the failing target removed from the list,
because each branch is a function of its own target alone. -/
theorem claim_C1 :
    (∀ (t : String) (env : TargetEnv),
      env.render (findPageForQuery env.doc t) = Except.error () →
      processSingleFigure t env =
        { image := ImgVal.empty, label := t, error := some "Failed to process" })
    ∧ (∀ (t : String) (env : TargetEnv) (b : String),
      env.render (findPageForQuery env.doc t) = Except.ok b →
      env.detect = DetectOutcome.throws →
      (processSingleFigure t env).error = none ∧
        (processSingleFigure t env).image ≠ ImgVal.empty)
    ∧ (∀ (targets : List String) (envOf : String → TargetEnv) (i : Nat),
      pipelineResults (targets.eraseIdx i) envOf =
        (pipelineResults targets envOf).eraseIdx i) := by
  refine ⟨fun t env h => ?_, fun t env b hb hd => ?_, fun targets envOf i => ?_⟩
  · simp only [processSingleFigure, h]
  · simp only [processSingleFigure, hb, hd]
    refine ⟨trivial, ?_⟩
    show enhanceStage (detectStage b DetectOutcome.throws env.imgInfo)
      env.enhance ≠ ImgVal.empty
    cases henh : env.enhance with
    | throws => simp [enhanceStage, detectStage]
    | ok o =>
      cases o with
      | none => simp [enhanceStage, detectStage]
      | some parts =>
        cases hpk : pickInline parts with
        | none => simp [enhanceStage, detectStage, hpk]
        | some d => simp [enhanceStage, detectStage, hpk]
  · exact map_eraseIdx _ targets i

/-- Counterexample to C1 as stated: in an environment whose detection
call throws, the per-target record is a success carrying the full page
raster, not a failure record with an empty image. -/
theorem claim_C1_cex :
    sampleEnvDetectThrow.detect = DetectOutcome.throws
    ∧ (processSingleFigure "Figure 1" sampleEnvDetectThrow).error = none
    ∧ (processSingleFigure "Figure 1" sampleEnvDetectThrow).image =
        ImgVal.pageRaster "PG" := by
  decide

/-- Witness for C1 in an environment whose rasterizer throws. -/
theorem claim_C1_witness :
    processSingleFigure "Figure 1" sampleEnvRenderThrow =
      { image := ImgVal.empty, label := "Figure 1",
        error := some "Failed to process" } :=
  claim_C1.1 "Figure 1" sampleEnvRenderThrow rfl

/-- Folding the join over a schedule preserves slot count. -/
lemma promiseAllJoin_fold_length (results : List FigResult) :
    ∀ (order : List Nat) (slots : List (Option FigResult)),
    (order.foldl (fun s j => s.set j results[j]?) slots).length =
      slots.length := by
  intro order
  induction order with
  | nil => intro slots; rfl
  | cons j rest ih =>
    intro slots
    rw [List.foldl_cons, ih, List.length_set]

/-- A slot of an index outside the schedule is untouched. -/
lemma promiseAllJoin_fold_not_mem (results : List FigResult) :
    ∀ (order : List Nat) (slots : List (Option FigResult)) (k : Nat),
    k ∉ order →
    (order.foldl (fun s j => s.set j results[j]?) slots)[k]? = slots[k]? := by
  intro order
  induction order with
  | nil => intro slots k _; rfl
  | cons j rest ih =>
    intro slots k hk
    rw [List.foldl_cons, ih _ k fun h => hk (List.mem_cons_of_mem j h),
      List.getElem?_set_ne fun h => hk (by rw [← h]; exact List.mem_cons_self j rest)]

/-- A slot of a scheduled index ends up holding that branch's result. -/
lemma promiseAllJoin_fold_mem (results : List FigResult) :
    ∀ (order : List Nat) (slots : List (Option FigResult)) (k : Nat),
    k ∈ order → k < slots.length →
    (order.foldl (fun s j => s.set j results[j]?) slots)[k]? =
      some results[k]? := by
  intro order
  induction order with
  | nil => intro slots k hk _; exact absurd hk (List.not_mem_nil k)
  | cons j rest ih =>
    intro slots k hk hlt
    rw [List.foldl_cons]
    by_cases hkr : k ∈ rest
    · exact ih _ k hkr (by rw [List.length_set]; exact hlt)
    · have hkj : k = j := by
        rcases List.mem_cons.mp hk with h | h
        · exact h
        · exact absurd h hkr
      subst hkj
      rw [promiseAllJoin_fold_not_mem results rest _ k hkr]
      exact List.getElem?_set_self hlt

/-- The join of a complete schedule reads back the results in original
index order, whatever the completion order was. -/
lemma promiseAllJoin_eq_map_some (results : List FigResult) (order : List Nat)
    (hperm : order.Perm (List.range results.length)) :
    promiseAllJoin results order = results.map some := by
  apply List.ext_getElem?
  intro k
  by_cases hk : k < results.length
  · have hmem : k ∈ order := hperm.mem_iff.mpr (List.mem_range.mpr hk)
    unfold promiseAllJoin
    rw [promiseAllJoin_fold_mem results order _ k hmem
      (by rw [List.length_replicate]; exact hk)]
    rw [List.getElem?_map, List.getElem?_eq_getElem hk]
    simp
  · have h1 : (promiseAllJoin results order).length ≤ k := by
      unfold promiseAllJoin
      rw [promiseAllJoin_fold_length, List.length_replicate]
      omega
    rw [List.getElem?_eq_none h1,
      List.getElem?_eq_none (by rw [List.length_map]; omega)]

/-- Claim C2: whatever order the concurrent per-target branches settle
in, the joined result list of visualizeFigure is ordered by the original
position of each identifier in the extractor output. -/
theorem claim_C2 (query : String) (ex : ExtractOutcome)
    (envOf : String → TargetEnv) (order : List Nat)
    (hperm : order.Perm
      (List.range (extractFigureTargets query ex).length)) :
    promiseAllJoin (pipelineResults (extractFigureTargets query ex) envOf)
        order =
      (pipelineResults (extractFigureTargets query ex) envOf).map some := by
  apply promiseAllJoin_eq_map_some
  simpa [pipelineResults] using hperm

/-- Witness for C2 at three targets settling in the order C, A, B. -/
theorem claim_C2_witness :
    ([2, 0, 1] : List Nat).Perm
      (List.range (extractFigureTargets "figs"
        (ExtractOutcome.ok (some ["A", "B", "C"]))).length)
    ∧ promiseAllJoin
        (pipelineResults (extractFigureTargets "figs"
          (ExtractOutcome.ok (some ["A", "B", "C"])))
          (fun _ => sampleEnvDetectThrow)) [2, 0, 1] =
      (pipelineResults (extractFigureTargets "figs"
        (ExtractOutcome.ok (some ["A", "B", "C"])))
        (fun _ => sampleEnvDetectThrow)).map some :=
  ⟨by decide,
   claim_C2 "figs" (ExtractOutcome.ok (some ["A", "B", "C"]))
     (fun _ => sampleEnvDetectThrow) [2, 0, 1] (by decide)⟩

/-- The assembly step always extends its accumulated string on the
right. -/
lemma figStepFold_fst (acc : String × Bool) (r : FigResult) :
    ∃ x, (figStepFold acc r).1 = acc.1 ++ x := by
  by_cases h : imgUrlStr r.image = ""
  · exact ⟨"*Could not visualize " ++ r.label ++ "*\n\n",
      by simp [figStepFold, h, String.append_assoc]⟩
  · exact ⟨"**" ++ r.label ++ "**\n\n![" ++ r.label ++ "](" ++
      imgUrlStr r.image ++ ")\n\n",
      by simp [figStepFold, h, String.append_assoc]⟩

/-- The assembled string keeps the initial accumulator as a prefix. -/
lemma figFold_fst_prefix (results : List FigResult) :
    ∀ acc : String × Bool,
    ∃ rest, (results.foldl figStepFold acc).1 = acc.1 ++ rest := by
  induction results with
  | nil => intro acc; exact ⟨"", by simp⟩
  | cons r t ih =>
    intro acc
    rw [List.foldl_cons]
    obtain ⟨x, hx⟩ := figStepFold_fst acc r
    obtain ⟨rest, hrest⟩ := ih (figStepFold acc r)
    exact ⟨x ++ rest, by rw [hrest, hx, String.append_assoc]⟩

/-- Once set, the hasSuccess flag stays set. -/
lemma figFold_flag_true (results : List FigResult) :
    ∀ s : String, (results.foldl figStepFold (s, true)).2 = true := by
  induction results with
  | nil => intro s; rfl
  | cons r t ih =>
    intro s
    rw [List.foldl_cons]
    by_cases h : imgUrlStr r.image = ""
    · have hstep : figStepFold (s, true) r =
          (s ++ "*Could not visualize " ++ r.label ++ "*\n\n", true) := by
        simp [figStepFold, h]
      rw [hstep]
      exact ih _
    · have hstep : figStepFold (s, true) r =
          (s ++ "**" ++ r.label ++ "**\n\n![" ++ r.label ++ "](" ++
            imgUrlStr r.image ++ ")\n\n", true) := by
        simp [figStepFold, h]
      rw [hstep]
      exact ih _

/-- With only failed targets the hasSuccess flag keeps its initial
value. -/
lemma figFold_flag_of_all_empty (results : List FigResult) :
    ∀ (s : String) (b : Bool), (∀ r ∈ results, imgUrlStr r.image = "") →
    (results.foldl figStepFold (s, b)).2 = b := by
  induction results with
  | nil => intro s b _; rfl
  | cons r t ih =>
    intro s b h
    rw [List.foldl_cons]
    have hr := h r (List.mem_cons_self r t)
    have hstep : figStepFold (s, b) r =
        (s ++ "*Could not visualize " ++ r.label ++ "*\n\n", b) := by
      simp [figStepFold, hr]
    rw [hstep]
    exact ih _ _ fun q hq => h q (List.mem_cons_of_mem r hq)

/-- A single successful target sets the hasSuccess flag for good. -/
lemma figFold_flag_of_some_nonempty (results : List FigResult) :
    ∀ (s : String) (b : Bool),
    (∃ r ∈ results, imgUrlStr r.image ≠ "") →
    (results.foldl figStepFold (s, b)).2 = true := by
  induction results with
  | nil =>
    rintro s b ⟨r, hr, _⟩
    exact absurd hr (List.not_mem_nil r)
  | cons r t ih =>
    rintro s b ⟨q, hq, hne⟩
    rw [List.foldl_cons]
    rcases List.mem_cons.mp hq with rfl | hmem
    · have hstep : (figStepFold (s, b) q).2 = true := by
        simp [figStepFold, hne]
      have hpair : figStepFold (s, b) q = ((figStepFold (s, b) q).1, true) := by
        rw [← hstep]
      rw [hpair]
      exact figFold_flag_true t _
    · exact ih _ _ ⟨q, hmem, hne⟩

/-- A run with a successful target never produces the all-failure
message, because its content starts with a different character. -/
lemma content_ne_of_flag_true {results : List FigResult}
    (hflag : (results.foldl figStepFold
      ("Here is your visualization.\n\n", false)).2 = true) :
    assembleContent results ≠ noLocateMsg := by
  unfold assembleContent
  simp only [hflag, if_true]
  obtain ⟨rest, hrest⟩ :=
    figFold_fst_prefix results ("Here is your visualization.\n\n", false)
  intro hcontra
  rw [hrest] at hcontra
  have hdata := congrArg String.data hcontra
  rw [String.data_append, String.data_append] at hdata
  rw [show "Here is your visualization.\n\n".data =
    'H' :: "ere is your visualization.\n\n".data from rfl] at hdata
  rw [show noLocateMsg.data =
    'I' :: " could not locate or process the requested figures in this paper.".data
    from rfl] at hdata
  simp [List.cons_append] at hdata

/-- Claim C6: visualizeFigure produces the single top-level message of
the all-failed outcome exactly when every per-target result carries an
empty image, so the all-failed outcome is distinguishable from any
outcome with at least one success. -/
theorem claim_C6 (query : String) (ex : ExtractOutcome)
    (envOf : String → TargetEnv) :
    visualizeFigure query ex envOf = noLocateMsg ↔
      ∀ r ∈ pipelineResults (extractFigureTargets query ex) envOf,
        imgUrlStr r.image = "" := by
  unfold visualizeFigure
  constructor
  · intro h
    by_contra hnot
    push_neg at hnot
    obtain ⟨r, hr, hne⟩ := hnot
    exact content_ne_of_flag_true
      (figFold_flag_of_some_nonempty _ _ _ ⟨r, hr, hne⟩) h
  · intro h
    unfold assembleContent
    have hflag := figFold_flag_of_all_empty _
      "Here is your visualization.\n\n" false h
    simp [hflag]

end Sofia
